import Mathlib

/-!
Shallow embedding of the idle-core-window finder `get_free_cores` and the
subprocess helper `__exec_cmd` from `scripts/xiangshan.py`, together with
proofs of the specification claims about them.

Modelling conventions:
* Per-core CPU utilization percentages (Python floats returned by
  `psutil.cpu_percent(interval=1, percpu=True)`) are modelled as rationals.
* The host state visible through `psutil` is a `Host` record: the physical
  core count (`psutil.cpu_count(logical=False)`), and the per-logical-core
  utilization snapshot (`psutil.cpu_percent(percpu=True)`, one entry per
  logical CPU).
* Each pass of the `while True:` loop consumes one `IterInput`: the process
  table sampled by `psutil.process_iter()`, the host counters, and the
  `random.random()` draw used for the backoff sleep if the pass fails.
  The loop itself is modelled over a (finite prefix of the) stream of such
  inputs; `get_free_cores_trace` returns the first successful result
  together with the list of sleep durations performed before it.
* `random.uniform(a, b)` is modelled by its CPython definition
  `a + (b - a) * random()` where `random()` lies in [0, 1].
-/

attribute [local semireducible] Rat.add Rat.mul Rat.sub Rat.inv

/-! ### Character-string machinery for the numactl regular expression -/

/-- `matchesAt pat s` holds when `pat` is a prefix of `s` (character lists). -/
def matchesAt : List Char → List Char → Bool
  | [], _ => true
  | _ :: _, [] => false
  | p :: ps, c :: cs => p == c && matchesAt ps cs

/-- `containsList pat s`: `pat` occurs as a contiguous substring of `s`. -/
def containsList (pat : List Char) : List Char → Bool
  | [] => matchesAt pat []
  | c :: cs => matchesAt pat (c :: cs) || containsList pat cs

/-- Numeric value of a digit string, as computed by Python `int()` on a
match of `[0-9]+`. -/
def natOfDigits (l : List Char) : Nat :=
  l.foldl (fun n c => 10 * n + (c.toNat - '0'.toNat)) 0

/-- Parse the tail of the pattern `-C +([0-9]+)-([0-9]+)` at the head of the
string: literal "-C", one or more spaces, a maximal digit run (group 1),
a literal '-', a maximal digit run (group 2).  Greedy `+` semantics give
maximal space and digit runs. -/
def parseCPat : List Char → Option (Nat × Nat)
  | '-' :: 'C' :: rest =>
    let sp := rest.takeWhile (fun c => c == ' ')
    if sp.isEmpty then none
    else
      let r1 := rest.dropWhile (fun c => c == ' ')
      let d1 := r1.takeWhile Char.isDigit
      if d1.isEmpty then none
      else
        match r1.dropWhile Char.isDigit with
        | '-' :: r2 =>
          let d2 := r2.takeWhile Char.isDigit
          if d2.isEmpty then none else some (natOfDigits d1, natOfDigits d2)
        | _ => none
  | _ => none

/-- The string "numactl" followed by a space, as a character list. -/
def numactlSp : List Char := ['n', 'u', 'm', 'a', 'c', 't', 'l', ' ']

/-- Groups extracted by
`re.compile(r'.*numactl +.*-C +([0-9]+)-([0-9]+).*').match(s)`.

A match decomposes a newline-free prefix of `s` as
`a ++ "numactl" ++ spaces ++ b ++ "-C" ++ spaces ++ digits ++ "-" ++ digits`
(`.` does not cross a newline, and `re.match` only needs a prefix to
match, so the trailing `.*` is irrelevant).  Backtracking maximizes the
leading `.*` first and the inner `.*` second, which extracts the groups at
the greatest position `p` such that "numactl " occurs within the first `p`
characters and the `-C`-range pattern parses at `p`. -/
def numaMatch (s : List Char) : Option (Nat × Nat) :=
  let t := s.takeWhile (fun c => !(c == '\n'))
  ((List.range (t.length + 1)).filterMap (fun p =>
    if containsList numactlSp (t.take p) then parseCPat (t.drop p) else none)).getLast?

/-! ### Process-table model -/

/-- One entry of `psutil.process_iter()`.  `good` carries the values of
`cmdline()` and `name()`; `gone` stands for a process whose inspection
raises `NoSuchProcess`, `AccessDenied` or `ZombieProcess` (the `except`
clause swallows these). -/
inductive PyProc where
  | good (cmdline : List String) (name : String)
  | gone
deriving DecidableEq

/-- Cores a single process contributes to `disable_cores`: the body of the
`for proc in psutil.process_iter()` loop.  `joint = ' '.join(proc.cmdline())`
is matched against the numactl regex; on a match, if `'ssh'` is not a
substring of `proc.name()`, the inclusive range
`range(int(g1), int(g2) + 1)` is appended. -/
def procDisable (p : PyProc) : List Nat :=
  match p with
  | .good cmdline name =>
    match numaMatch (String.intercalate " " cmdline).toList with
    | some (a, b) =>
      if containsList ['s', 's', 'h'] name.toList then []
      else List.range' a (b + 1 - a)
    | none => []
  | .gone => []

/-- The `disable_cores` list accumulated over the whole process table. -/
def disable_cores (procs : List PyProc) : List Nat :=
  procs.flatMap procDisable

/-! ### Host counters and one polling iteration -/

/-- Host CPU state visible through psutil: physical core count and the
per-logical-core utilization snapshot. -/
structure Host where
  physCores : Nat
  perCoreUsage : List ℚ
deriving DecidableEq

/-- `psutil.cpu_count(logical=...)`: number of logical CPUs when
`logical=True`, number of physical cores when `logical=False`. -/
def cpu_count (logical : Bool) (h : Host) : Nat :=
  if logical then h.perCoreUsage.length else h.physCores

/-- `psutil.cpu_percent(interval=1, percpu=True)`: one utilization value per
logical CPU. -/
def cpu_percent_percpu (h : Host) : List ℚ :=
  h.perCoreUsage

/-- Everything one pass of the `while True:` loop samples from the outside
world: the process table, the host counters, and the `random.random()`
draw used by the backoff sleep if the pass fails. -/
structure IterInput where
  procs : List PyProc
  host : Host
  rand : ℚ
deriving DecidableEq

/-- The slice `core_usage[i*n : i*n+n]` for window `i`. -/
def windowUsage (n : Nat) (inp : IterInput) (i : Nat) : List ℚ :=
  ((cpu_percent_percpu inp.host).drop (i * n)).take n

/-- The loop-body test for window `i`: skipped when some reserved core lies
in `range(i*n, i*n+n)`; otherwise accepted when
`sum(window_usage) < 30 * n and True not in map(lambda x: x > 90, window_usage)`. -/
def windowOk (n : Nat) (inp : IterInput) (i : Nat) : Bool :=
  if (List.range' (i * n) n).any (fun c => decide (c ∈ disable_cores inp.procs)) then
    false
  else
    decide ((windowUsage n inp i).sum < 30 * n) &&
      !((windowUsage n inp i).any (fun x => decide (x > 90)))

/-- `num_window = num_logical_core // n` where
`num_logical_core = psutil.cpu_count(logical=False)`. -/
def num_window (n : Nat) (inp : IterInput) : Nat :=
  cpu_count false inp.host / n

/-- The `for i in range(num_window)` search: first `i` in
`[start, start+fuel)` accepted by `p`. -/
def findWin (p : Nat → Bool) : Nat → Nat → Option Nat
  | _, 0 => none
  | i, fuel + 1 => if p i then some i else findWin p (i + 1) fuel

/-- The return value built for an accepted window `i`:
`(((i*n) % num_logical_core) // (num_logical_core // 2), i*n, i*n + n - 1)`. -/
def windowResult (n : Nat) (inp : IterInput) (i : Nat) : Nat × Nat × Nat :=
  let num_logical_core := cpu_count false inp.host
  (((i * n) % num_logical_core) / (num_logical_core / 2), i * n, i * n + n - 1)

/-- One pass of the `while True:` body of `get_free_cores(n)`: build
`disable_cores`, sample the counters, scan the windows in ascending order,
and return the first accepted window's triple, or `none` when the pass
falls through to the sleep. -/
def get_free_cores_iter (n : Nat) (inp : IterInput) : Option (Nat × Nat × Nat) :=
  (findWin (windowOk n inp) 0 (num_window n inp)).map (windowResult n inp)

/-- `random.uniform(a, b)`, by its CPython definition
`a + (b - a) * random()`. -/
def uniform (a b r : ℚ) : ℚ := a + (b - a) * r

/-- The `while True:` loop of `get_free_cores(n)` over a finite prefix of
the stream of per-iteration samples: returns the first successful pass's
triple together with the durations `random.uniform(1, 60)` slept before
it, or `none` when every listed pass fails. -/
def get_free_cores_trace (n : Nat) : List IterInput → Option ((Nat × Nat × Nat) × List ℚ)
  | [] => none
  | inp :: rest =>
    match get_free_cores_iter n inp with
    | some r => some (r, [])
    | none =>
      (get_free_cores_trace n rest).map (fun p => (p.1, uniform 1 60 inp.rand :: p.2))

/-! ### Subprocess helper `__exec_cmd` -/

/-- Outcome of `proc.wait(self.timeout)` inside `__exec_cmd`:
the process exited with a code, the wait raised `TimeoutExpired`, or a
`KeyboardInterrupt` arrived. -/
inductive WaitResult where
  | exited (code : Int)
  | timedOut
  | interrupted
deriving DecidableEq

/-- Observable outcome of `__exec_cmd`: the value it returns, and whether
it sent `SIGINT` to the child's process group. -/
structure ExecResult where
  ret : Int
  killedGroup : Bool
deriving DecidableEq

/-- `__exec_cmd`'s control flow after spawning the child: `proc.wait`
completing returns the child's exit code; on `KeyboardInterrupt` or
`subprocess.TimeoutExpired` it runs
`os.killpg(os.getpgid(proc.pid), signal.SIGINT)` and returns 0. -/
def execCmd (w : WaitResult) : ExecResult :=
  match w with
  | .exited code => ⟨code, false⟩
  | .timedOut => ⟨0, true⟩
  | .interrupted => ⟨0, true⟩

/-- The exit code of the invoked external process, when it has one: `wait`
only yields a code when the process terminated within the timeout. -/
def waitExitCode (w : WaitResult) : Option Int :=
  match w with
  | .exited code => some code
  | _ => none

/-- Spec-language acceptance condition for window `i` (covering cores
`[i*n, i*n + n)`): none of its cores is reserved, the summed utilization of
its slice is strictly below `30 * n`, and no value in its slice is strictly
greater than 90. -/
def acceptedWindow (n : Nat) (inp : IterInput) (i : Nat) : Prop :=
  (∀ c, i * n ≤ c → c < i * n + n → c ∉ disable_cores inp.procs) ∧
  (windowUsage n inp i).sum < 30 * n ∧
  ∀ x ∈ windowUsage n inp i, ¬ (90 < x)

/-! ### Helper lemmas -/

theorem findWin_eq_some_iff {p : Nat → Bool} {s k j : Nat} :
    findWin p s k = some j ↔
      s ≤ j ∧ j < s + k ∧ p j = true ∧ ∀ m, s ≤ m → m < j → p m = false := by
  induction k generalizing s with
  | zero =>
    simp only [findWin]
    constructor
    · intro h; exact Option.noConfusion h
    · rintro ⟨h1, h2, -, -⟩; omega
  | succ k ih =>
    rw [findWin]
    cases hp : p s with
    | true =>
      rw [if_pos rfl]
      constructor
      · intro h
        have hj : s = j := Option.some.inj h
        subst hj
        exact ⟨le_refl _, by omega, hp,
          fun m h1 h2 => absurd (Nat.lt_of_le_of_lt h1 h2) (Nat.lt_irrefl s)⟩
      · rintro ⟨h1, h2, h3, h4⟩
        by_cases hj : j = s
        · rw [hj]
        · have hps := h4 s (le_refl _) (by omega)
          rw [hp] at hps
          exact Bool.noConfusion hps
    | false =>
      rw [if_neg Bool.false_ne_true]
      rw [ih]
      constructor
      · rintro ⟨h1, h2, h3, h4⟩
        refine ⟨by omega, by omega, h3, fun m hm1 hm2 => ?_⟩
        rcases Nat.eq_or_lt_of_le hm1 with he | hlt
        · rw [← he]; exact hp
        · exact h4 m hlt hm2
      · rintro ⟨h1, h2, h3, h4⟩
        have hs : s ≠ j := by
          intro he
          rw [← he] at h3
          rw [h3] at hp
          exact Bool.noConfusion hp
        exact ⟨by omega, by omega, h3, fun m hm1 hm2 => h4 m (by omega) hm2⟩

theorem findWin_eq_none_iff {p : Nat → Bool} {s k : Nat} :
    findWin p s k = none ↔ ∀ j, s ≤ j → j < s + k → p j = false := by
  induction k generalizing s with
  | zero =>
    constructor
    · intro _ j h1 h2
      exact absurd (Nat.lt_of_le_of_lt h1 h2) (Nat.lt_irrefl s)
    · intro _
      rfl
  | succ k ih =>
    rw [findWin]
    cases hp : p s with
    | true =>
      rw [if_pos rfl]
      constructor
      · intro h; exact Option.noConfusion h
      · intro h
        have := h s (le_refl _) (by omega)
        rw [hp] at this
        exact Bool.noConfusion this
    | false =>
      rw [if_neg Bool.false_ne_true]
      rw [ih]
      constructor
      · intro h j h1 h2
        rcases Nat.eq_or_lt_of_le h1 with he | hlt
        · rw [← he]; exact hp
        · exact h j hlt (by omega)
      · intro h j h1 h2
        exact h j (by omega) (by omega)

theorem windowOk_eq_true_iff (n : Nat) (inp : IterInput) (i : Nat) :
    windowOk n inp i = true ↔ acceptedWindow n inp i := by
  unfold windowOk acceptedWindow
  cases hany : (List.range' (i * n) n).any (fun c => decide (c ∈ disable_cores inp.procs)) with
  | true =>
    rw [if_pos rfl]
    constructor
    · intro h; exact Bool.noConfusion h
    · rintro ⟨h1, -, -⟩
      exfalso
      rw [List.any_eq_true] at hany
      obtain ⟨c, hc1, hc2⟩ := hany
      rw [List.mem_range'_1] at hc1
      exact h1 c hc1.1 hc1.2 (by simpa using hc2)
  | false =>
    rw [if_neg Bool.false_ne_true]
    rw [Bool.and_eq_true, decide_eq_true_eq]
    constructor
    · rintro ⟨h1, h2⟩
      have hfree : ∀ c, i * n ≤ c → c < i * n + n → c ∉ disable_cores inp.procs := by
        intro c hc1 hc2 hmem
        have hc : (List.range' (i * n) n).any
            (fun c => decide (c ∈ disable_cores inp.procs)) = true :=
          List.any_eq_true.mpr ⟨c, List.mem_range'_1.mpr ⟨hc1, hc2⟩, by simpa using hmem⟩
        rw [hany] at hc
        exact Bool.noConfusion hc
      refine ⟨hfree, h1, fun x hx hgt => ?_⟩
      have hc : (windowUsage n inp i).any (fun x => decide (x > 90)) = true :=
        List.any_eq_true.mpr ⟨x, hx, by simpa using hgt⟩
      rw [hc] at h2
      exact Bool.noConfusion h2
    · rintro ⟨-, h2, h3⟩
      refine ⟨h2, ?_⟩
      cases hc : (windowUsage n inp i).any (fun x => decide (x > 90)) with
      | true =>
        exfalso
        rw [List.any_eq_true] at hc
        obtain ⟨x, hx1, hx2⟩ := hc
        exact h3 x hx1 (by simpa using hx2)
      | false => rfl

theorem iter_eq_some_iff (n : Nat) (inp : IterInput) (r : Nat × Nat × Nat) :
    get_free_cores_iter n inp = some r ↔
      ∃ i, i < num_window n inp ∧ windowOk n inp i = true ∧
        (∀ j, j < i → windowOk n inp j = false) ∧ r = windowResult n inp i := by
  unfold get_free_cores_iter
  rw [Option.map_eq_some']
  constructor
  · rintro ⟨i, hi, rfl⟩
    rw [findWin_eq_some_iff] at hi
    exact ⟨i, by omega, hi.2.2.1, fun j hj => hi.2.2.2 j (by omega) hj, rfl⟩
  · rintro ⟨i, h1, h2, h3, rfl⟩
    exact ⟨i, findWin_eq_some_iff.mpr ⟨by omega, by omega, h2, fun m _ hm => h3 m hm⟩, rfl⟩

/-! ### Claims -/

/-- C1: In every polling iteration of `get_free_cores(n)`, a candidate
window `i` (covering cores `[i*n, i*n + n)`) is accepted iff none of its
cores is in the reserved set, the sum of its per-core utilization values is
strictly below `30 * n`, and no individual core in it has utilization
strictly greater than 90; the iteration returns the first accepted window
in ascending window order. -/
theorem get_free_cores_first_accepted (n : Nat) (inp : IterInput) (r : Nat × Nat × Nat) :
    get_free_cores_iter n inp = some r ↔
      ∃ i, i < num_window n inp ∧ acceptedWindow n inp i ∧
        (∀ j, j < i → ¬ acceptedWindow n inp j) ∧ r = windowResult n inp i := by
  rw [iter_eq_some_iff]
  constructor
  · rintro ⟨i, h1, h2, h3, rfl⟩
    refine ⟨i, h1, (windowOk_eq_true_iff _ _ _).mp h2, fun j hj hacc => ?_, rfl⟩
    have hb := (windowOk_eq_true_iff n inp j).mpr hacc
    rw [h3 j hj] at hb
    exact Bool.noConfusion hb
  · rintro ⟨i, h1, h2, h3, rfl⟩
    refine ⟨i, h1, (windowOk_eq_true_iff _ _ _).mpr h2, fun j hj => ?_, rfl⟩
    cases hc : windowOk n inp j with
    | false => rfl
    | true => exact absurd ((windowOk_eq_true_iff n inp j).mp hc) (h3 j hj)

/-- C2: whenever an iteration of `get_free_cores(n)` returns a triple
`(numaNode, start, end)`, it satisfies `end - start + 1 = n`,
`start ≤ end < cpu_count(logical=False)` as sampled that iteration, and
`start` is a multiple of `n`. -/
theorem get_free_cores_window_shape (n : Nat) (inp : IterInput) (node s e : Nat)
    (h : get_free_cores_iter n inp = some (node, s, e)) :
    e - s + 1 = n ∧ s ≤ e ∧ e < cpu_count false inp.host ∧ n ∣ s := by
  rw [iter_eq_some_iff] at h
  obtain ⟨i, h1, -, -, heq⟩ := h
  have hn : 1 ≤ n := by
    by_contra hn
    have h0 : n = 0 := by omega
    rw [h0] at h1
    simp only [num_window, Nat.div_zero] at h1
    omega
  simp only [windowResult, Prod.mk.injEq] at heq
  obtain ⟨-, hs, he⟩ := heq
  have key : i * n + n ≤ cpu_count false inp.host := by
    calc i * n + n = (i + 1) * n := by ring
    _ ≤ (cpu_count false inp.host / n) * n :=
        Nat.mul_le_mul_right n (Nat.succ_le_of_lt h1)
    _ ≤ cpu_count false inp.host := Nat.div_mul_le_self _ n
  refine ⟨by omega, by omega, by omega, ⟨i, by rw [hs, Nat.mul_comm]⟩⟩

/-- C2 witness: a concrete iteration (4 physical cores, all idle, empty
process table) returning window `(0, 0, 1)` for `n = 2`. -/
theorem get_free_cores_window_shape_witness :
    get_free_cores_iter 2 ⟨[], ⟨4, [0, 0, 0, 0]⟩, 0⟩ = some (0, 0, 1) ∧
      (1 - 0 + 1 = 2 ∧ 0 ≤ 1 ∧ 1 < cpu_count false (Host.mk 4 [0, 0, 0, 0]) ∧ 2 ∣ 0) :=
  ⟨by decide, get_free_cores_window_shape 2 ⟨[], ⟨4, [0, 0, 0, 0]⟩, 0⟩ 0 0 1 (by decide)⟩

/-- C3: a window returned by an iteration never intersects the reserved
set sampled in that iteration; in particular, when the sampled reservation
covers all of `[0, n)`, the returned start is at least `n` (the next
candidate window `[n, 2n)` or a later one). -/
theorem get_free_cores_avoids_reserved (n : Nat) (inp : IterInput) (node s e : Nat)
    (h : get_free_cores_iter n inp = some (node, s, e)) :
    (∀ c, s ≤ c → c ≤ e → c ∉ disable_cores inp.procs) ∧
    ((∀ c, c < n → c ∈ disable_cores inp.procs) → n ≤ s) := by
  rw [iter_eq_some_iff] at h
  obtain ⟨i, h1, h2, -, heq⟩ := h
  rw [windowOk_eq_true_iff] at h2
  obtain ⟨hfree, -, -⟩ := h2
  have hn : 1 ≤ n := by
    by_contra hn
    have h0 : n = 0 := by omega
    rw [h0] at h1
    simp only [num_window, Nat.div_zero] at h1
    omega
  simp only [windowResult, Prod.mk.injEq] at heq
  obtain ⟨-, hs, he⟩ := heq
  constructor
  · intro c hc1 hc2
    exact hfree c (by omega) (by omega)
  · intro hres
    have hi : 1 ≤ i := by
      by_contra hi
      have h0 : i = 0 := by omega
      subst h0
      exact hfree 0 (by omega) (by omega) (hres 0 (by omega))
    rw [hs]
    calc n = 1 * n := (Nat.one_mul n).symm
    _ ≤ i * n := Nat.mul_le_mul_right n hi

/-- C3 witness: a process table pinning cores 0-1 via `numactl -C 0-1`,
all cores idle, `n = 2`: the returned window `[2, 3]` avoids the reserved
cores, and since the reservation covers `[0, 2)` the start is `2 ≥ n`. -/
theorem get_free_cores_avoids_reserved_witness :
    get_free_cores_iter 2
        ⟨[PyProc.good ["numactl", "-C", "0-1"] "bash"], ⟨4, [0, 0, 0, 0]⟩, 0⟩ =
      some (1, 2, 3) ∧
    (∀ c, 2 ≤ c → c ≤ 3 →
      c ∉ disable_cores [PyProc.good ["numactl", "-C", "0-1"] "bash"]) ∧
    (∀ c, c < 2 → c ∈ disable_cores [PyProc.good ["numactl", "-C", "0-1"] "bash"]) ∧
    2 ≤ 2 := by
  have h := get_free_cores_avoids_reserved 2
    ⟨[PyProc.good ["numactl", "-C", "0-1"] "bash"], ⟨4, [0, 0, 0, 0]⟩, 0⟩
    1 2 3 (by decide)
  exact ⟨by decide, h.1, by decide, h.2 (by decide)⟩

/-- C4: a core `c` is in the reserved set exactly when some successfully
inspected process has a command line whose space-joined form matches the
`numactl ... -C a-b` pattern with `a ≤ c ≤ b` and whose name does not
contain `ssh`; non-matching lines, `ssh`-named processes and processes
whose inspection raises contribute nothing, and no entry aborts the scan
(the characterization holds for every process table). -/
theorem disable_cores_characterization (procs : List PyProc) (c : Nat) :
    c ∈ disable_cores procs ↔
      ∃ cmdline name a b, PyProc.good cmdline name ∈ procs ∧
        numaMatch (String.intercalate " " cmdline).toList = some (a, b) ∧
        containsList ['s', 's', 'h'] name.toList = false ∧
        a ≤ c ∧ c ≤ b := by
  unfold disable_cores
  rw [List.mem_flatMap]
  constructor
  · rintro ⟨p, hp, hc⟩
    cases p with
    | gone => exact absurd hc (List.not_mem_nil c)
    | good cmdline name =>
      simp only [procDisable] at hc
      cases hm : numaMatch (String.intercalate " " cmdline).toList with
      | none =>
        simp only [hm] at hc
        exact absurd hc (List.not_mem_nil c)
      | some ab =>
        obtain ⟨a, b⟩ := ab
        simp only [hm] at hc
        cases hssh : containsList ['s', 's', 'h'] name.toList with
        | true =>
          rw [if_pos (by rw [hssh])] at hc
          exact absurd hc (List.not_mem_nil c)
        | false =>
          rw [if_neg (by rw [hssh]; exact Bool.false_ne_true),
            List.mem_range'_1] at hc
          exact ⟨cmdline, name, a, b, hp, hm, hssh, hc.1, by omega⟩
  · rintro ⟨cmdline, name, a, b, hmem, hm, hssh, hac, hcb⟩
    refine ⟨PyProc.good cmdline name, hmem, ?_⟩
    simp only [procDisable, hm]
    rw [if_neg (by rw [hssh]; exact Bool.false_ne_true), List.mem_range'_1]
    omega

/-- A window containing a utilization value strictly above 90 is never
accepted. -/
theorem over90_not_accepted (n : Nat) (inp : IterInput) (i : Nat)
    (hx : ∃ x ∈ windowUsage n inp i, 90 < x) : ¬ acceptedWindow n inp i := by
  rintro ⟨-, -, hno⟩
  obtain ⟨x, hmem, hgt⟩ := hx
  exact hno x hmem hgt

/-- C5: when no window of an iteration is accepted (in particular when
every window contains a core with utilization strictly above 90, which by
`over90_not_accepted` forbids acceptance), that pass returns nothing; the
loop sleeps `random.uniform(1, 60)` seconds — a value in `[1, 60]`
whenever the `random()` draw lies in `[0, 1]` — and then retries the whole
scan with the next iteration's freshly sampled process table and
utilization. -/
theorem get_free_cores_retries_when_none_accepted (n : Nat) (inp : IterInput)
    (rest : List IterInput)
    (hnoacc : ∀ i, i < num_window n inp → ¬ acceptedWindow n inp i)
    (hr0 : 0 ≤ inp.rand) (hr1 : inp.rand ≤ 1) :
    get_free_cores_iter n inp = none ∧
    get_free_cores_trace n (inp :: rest) =
      (get_free_cores_trace n rest).map
        (fun p => (p.1, uniform 1 60 inp.rand :: p.2)) ∧
    1 ≤ uniform 1 60 inp.rand ∧ uniform 1 60 inp.rand ≤ 60 := by
  have hnone : get_free_cores_iter n inp = none := by
    unfold get_free_cores_iter
    rw [Option.map_eq_none', findWin_eq_none_iff]
    intro j h1 h2
    cases hc : windowOk n inp j with
    | false => rfl
    | true =>
      exact absurd ((windowOk_eq_true_iff n inp j).mp hc) (hnoacc j (by omega))
  refine ⟨hnone, by simp [get_free_cores_trace, hnone], ?_, ?_⟩
  · unfold uniform
    nlinarith [hr0]
  · unfold uniform
    nlinarith [hr1]

/-- C5 witness: one core at 100% for `n = 1`: every window is over 90, so
none is accepted, the pass fails, and the sleep duration for draw 1/2 is
30.5 seconds, inside [1, 60]. -/
theorem get_free_cores_retries_when_none_accepted_witness :
    (∀ i, i < num_window 1 ⟨[], ⟨1, [100]⟩, 1/2⟩ →
      ∃ x ∈ windowUsage 1 ⟨[], ⟨1, [100]⟩, 1/2⟩ i, 90 < x) ∧
    (0:ℚ) ≤ 1/2 ∧ ((1:ℚ)/2) ≤ 1 ∧
    get_free_cores_iter 1 ⟨[], ⟨1, [100]⟩, 1/2⟩ = none ∧
    get_free_cores_trace 1 [⟨[], ⟨1, [100]⟩, 1/2⟩] =
      (get_free_cores_trace 1 []).map
        (fun p => (p.1, uniform 1 60 (1/2) :: p.2)) ∧
    1 ≤ uniform 1 60 ((1:ℚ)/2) ∧ uniform 1 60 ((1:ℚ)/2) ≤ 60 := by
  have h90 : ∀ i, i < num_window 1 ⟨[], ⟨1, [100]⟩, 1/2⟩ →
      ∃ x ∈ windowUsage 1 ⟨[], ⟨1, [100]⟩, 1/2⟩ i, 90 < x := by decide
  have h := get_free_cores_retries_when_none_accepted 1 ⟨[], ⟨1, [100]⟩, 1/2⟩ []
    (fun i hi => over90_not_accepted 1 ⟨[], ⟨1, [100]⟩, 1/2⟩ i (h90 i hi))
    (by decide) (by decide)
  exact ⟨h90, by decide, by decide, h.1, h.2.1, h.2.2.1, h.2.2.2⟩

/-- C6: the `numaNode` component of any returned triple equals
`(start % cpu_count(logical=False)) / (cpu_count(logical=False) / 2)` with
floor division, for the count sampled that iteration. -/
theorem get_free_cores_numa_node (n : Nat) (inp : IterInput) (node s e : Nat)
    (h : get_free_cores_iter n inp = some (node, s, e)) :
    node = (s % cpu_count false inp.host) / (cpu_count false inp.host / 2) := by
  rw [iter_eq_some_iff] at h
  obtain ⟨i, -, -, -, heq⟩ := h
  simp only [windowResult, Prod.mk.injEq] at heq
  obtain ⟨hnode, hs, -⟩ := heq
  rw [hnode, hs]

/-- C6 witness: on a 64-core sample with `n = 8`, a window starting at 40
gets node `40 / 32 = 1` and a window starting at 8 gets node `0`. -/
theorem get_free_cores_numa_node_witness :
    get_free_cores_iter 8
        ⟨[PyProc.good ["numactl", "-C", "0-39"] "bash"],
          ⟨64, List.replicate 64 0⟩, 0⟩ = some (1, 40, 47) ∧
    1 = (40 % cpu_count false (Host.mk 64 (List.replicate 64 0))) /
      (cpu_count false (Host.mk 64 (List.replicate 64 0)) / 2) ∧
    get_free_cores_iter 8
        ⟨[PyProc.good ["numactl", "-C", "0-7"] "bash"],
          ⟨64, List.replicate 64 0⟩, 0⟩ = some (0, 8, 15) ∧
    0 = (8 % cpu_count false (Host.mk 64 (List.replicate 64 0))) /
      (cpu_count false (Host.mk 64 (List.replicate 64 0)) / 2) := by
  have h1 : get_free_cores_iter 8
      ⟨[PyProc.good ["numactl", "-C", "0-39"] "bash"],
        ⟨64, List.replicate 64 0⟩, 0⟩ = some (1, 40, 47) := by decide
  have h2 : get_free_cores_iter 8
      ⟨[PyProc.good ["numactl", "-C", "0-7"] "bash"],
        ⟨64, List.replicate 64 0⟩, 0⟩ = some (0, 8, 15) := by decide
  exact ⟨h1, get_free_cores_numa_node 8 _ 1 40 47 h1,
    h2, get_free_cores_numa_node 8 _ 0 8 15 h2⟩

/-- C7 counterexample: an all-zero utilization snapshot does not by itself
force the first window `[0, n)` to be returned — with a process pinning
cores 0-1, the first pass for `n = 2` returns window `(1, 2, 3)`, not
`(0, 0, 1)`. -/
theorem get_free_cores_zero_usage_counterexample :
    (∀ x ∈ (Host.mk 4 [0, 0, 0, 0]).perCoreUsage, x = 0) ∧
    get_free_cores_trace 2
        [⟨[PyProc.good ["numactl", "-C", "0-1"] "bash"], ⟨4, [0, 0, 0, 0]⟩, 0⟩] =
      some ((1, 2, 3), []) ∧
    ((1, 2, 3) : Nat × Nat × Nat) ≠ (0, 0, 2 - 1) := by
  refine ⟨by decide, by decide, by decide⟩

/-- C7 (amended): for every iteration whose utilization snapshot is all
zero, provided additionally that `1 ≤ n ≤` the sampled core count and that
the sampled reserved set does not meet `[0, n)`, `get_free_cores(n)`
returns the first window — the triple `(0, 0, n-1)` — in that first
iteration, with no sleep or retry. -/
theorem get_free_cores_zero_usage_first_window (n : Nat) (inp : IterInput)
    (rest : List IterInput)
    (hz : ∀ x ∈ inp.host.perCoreUsage, x = 0)
    (hn : 1 ≤ n) (hcap : n ≤ cpu_count false inp.host)
    (hfree : ∀ c, c < n → c ∉ disable_cores inp.procs) :
    get_free_cores_trace n (inp :: rest) = some ((0, 0, n - 1), []) := by
  have hok : windowOk n inp 0 = true := by
    rw [windowOk_eq_true_iff]
    have hzz : ∀ x ∈ windowUsage n inp 0, x = 0 := fun x hx =>
      hz x (List.mem_of_mem_drop (List.mem_of_mem_take hx))
    refine ⟨fun c hc1 hc2 => hfree c (by omega), ?_, ?_⟩
    · rw [List.sum_eq_zero hzz]
      have hq : (0:ℚ) < n := by exact_mod_cast hn
      nlinarith
    · intro x hx
      rw [hzz x hx]
      norm_num
  have hiter : get_free_cores_iter n inp = some (windowResult n inp 0) := by
    unfold get_free_cores_iter
    obtain ⟨k, hk⟩ : ∃ k, num_window n inp = k + 1 := by
      have hw : 1 ≤ num_window n inp := by
        unfold num_window
        exact (Nat.one_le_div_iff (by omega)).mpr hcap
      exact ⟨num_window n inp - 1, by omega⟩
    rw [hk, findWin, if_pos (by rw [hok]), Option.map_some']
  have hres : windowResult n inp 0 = (0, 0, n - 1) := by
    unfold windowResult
    simp
  rw [hres] at hiter
  simp [get_free_cores_trace, hiter]

/-- C7 witness: 2 idle cores, empty process table, `n = 2`: the trace
returns `((0, 0, 1), [])` with no sleep. -/
theorem get_free_cores_zero_usage_first_window_witness :
    (∀ x ∈ (Host.mk 2 [0, 0]).perCoreUsage, x = 0) ∧
    get_free_cores_trace 2 [⟨[], ⟨2, [0, 0]⟩, 0⟩] = some ((0, 0, 2 - 1), []) :=
  ⟨by decide, get_free_cores_zero_usage_first_window 2 ⟨[], ⟨2, [0, 0]⟩, 0⟩ []
    (by decide) (by decide) (by decide) (by decide)⟩

/-- C8: the window partition is computed from
`psutil.cpu_count(logical=False)` — the physical core count — not from the
logical core count over which the utilization snapshot is taken: on a host
with 2 physical and 4 logical cores, the snapshot has 4 entries but only
`2 / 2 = 1` window of size 2 exists (a logical-count partition would give
2), so the upper logical cores are never examined. -/
theorem num_window_uses_physical_count :
    cpu_count false ⟨2, [0, 0, 0, 0]⟩ = 2 ∧
    cpu_count true ⟨2, [0, 0, 0, 0]⟩ = 4 ∧
    (cpu_percent_percpu ⟨2, [0, 0, 0, 0]⟩).length = 4 ∧
    num_window 2 ⟨[], ⟨2, [0, 0, 0, 0]⟩, 0⟩ = 1 ∧
    num_window 2 ⟨[], ⟨2, [0, 0, 0, 0]⟩, 0⟩ ≠ cpu_count true ⟨2, [0, 0, 0, 0]⟩ / 2 ∧
    get_free_cores_iter 2 ⟨[], ⟨2, [0, 0, 0, 0]⟩, 0⟩ = some (0, 0, 1) := by
  refine ⟨by decide, by decide, by decide, by decide, by decide, by decide⟩

/-- C9 counterexample: when `proc.wait` raises `TimeoutExpired`, the
invoked process has no exit code to propagate, yet `__exec_cmd` returns 0 —
after SIGINT-killing the child's process group, which is recovery logic
beyond propagating an exit code. -/
theorem execCmd_timeout_counterexample :
    some (execCmd WaitResult.timedOut).ret ≠ waitExitCode WaitResult.timedOut ∧
    (execCmd WaitResult.timedOut).killedGroup = true := by
  refine ⟨by decide, by decide⟩

/-- C9 (amended): `__exec_cmd` returns the invoked process's exit code
(without killing anything) exactly when `proc.wait` completes within the
timeout; on `KeyboardInterrupt` or `TimeoutExpired` it SIGINTs the child's
process group and returns 0. -/
theorem execCmd_exit_code (w : WaitResult) :
    (∀ c, waitExitCode w = some c → execCmd w = ⟨c, false⟩) ∧
    (waitExitCode w = none → execCmd w = ⟨0, true⟩) := by
  cases w with
  | exited c0 =>
    refine ⟨fun c hc => ?_, fun h => Option.noConfusion h⟩
    have hc0 : c0 = c := Option.some.inj hc
    rw [← hc0]
    rfl
  | timedOut => exact ⟨fun c hc => Option.noConfusion hc, fun _ => rfl⟩
  | interrupted => exact ⟨fun c hc => Option.noConfusion hc, fun _ => rfl⟩

/-- C9 witness: a process exiting with code 7 has its code propagated
unchanged; a timed-out wait yields return 0 with the group killed. -/
theorem execCmd_exit_code_witness :
    waitExitCode (WaitResult.exited 7) = some 7 ∧
    execCmd (WaitResult.exited 7) = ⟨7, false⟩ ∧
    waitExitCode WaitResult.timedOut = none ∧
    execCmd WaitResult.timedOut = ⟨0, true⟩ :=
  ⟨rfl, (execCmd_exit_code (WaitResult.exited 7)).1 7 rfl, rfl,
    (execCmd_exit_code WaitResult.timedOut).2 rfl⟩

/-- C10: when every sampled core count is strictly below `n`, the number of
windows is 0 in every iteration, so no window is ever examined and the loop
never returns within any finite prefix of iterations — it sleeps and
retries forever, regardless of utilization values and reservations. -/
theorem get_free_cores_never_returns_large_n (n : Nat) (inputs : List IterInput)
    (h : ∀ inp ∈ inputs, cpu_count false inp.host < n) :
    (∀ inp ∈ inputs, num_window n inp = 0) ∧
    get_free_cores_trace n inputs = none := by
  induction inputs with
  | nil => exact ⟨fun inp hinp => absurd hinp (List.not_mem_nil inp), rfl⟩
  | cons inp rest ih =>
    have hw : num_window n inp = 0 := by
      unfold num_window
      exact Nat.div_eq_of_lt (h inp (List.mem_cons_self inp rest))
    have hiter : get_free_cores_iter n inp = none := by
      unfold get_free_cores_iter
      rw [hw]
      rfl
    obtain ⟨ih1, ih2⟩ := ih (fun i hi => h i (List.mem_cons_of_mem inp hi))
    refine ⟨fun i hi => ?_, by simp [get_free_cores_trace, hiter, ih2]⟩
    rcases List.mem_cons.mp hi with he | hm
    · rw [he]
      exact hw
    · exact ih1 i hm

/-- C10 witness: 2 physical cores, `n = 3`, fully idle: the single listed
iteration examines no window and the loop does not return. -/
theorem get_free_cores_never_returns_large_n_witness :
    (∀ inp ∈ [(⟨[], ⟨2, [0, 0]⟩, 0⟩ : IterInput)], cpu_count false inp.host < 3) ∧
    get_free_cores_trace 3 [⟨[], ⟨2, [0, 0]⟩, 0⟩] = none :=
  ⟨by decide,
    (get_free_cores_never_returns_large_n 3 [⟨[], ⟨2, [0, 0]⟩, 0⟩] (by decide)).2⟩
